import Mathlib

/-!
# proxy-collector: a fan-out HTTP reverse proxy

A shallow embedding of `src/proxy/proxy.go` and of the configuration and reload
code of `src/cmd/proxy-collector`, with the properties of the specification
stated over it.

Conventions of the embedding.

* A Go `string` is a Lean `String`; the `strings` functions used by the source
  are written over the list of characters of the string.
* A Go `[]byte` is a `List Nat` (one number below 256 per byte); a possibly
  `nil` slice is an `Option (List Nat)`, with `none` for `nil`.
* A Go `map[string][]string` is an association list without repeated keys; a
  map is a reference in Go, so a request holds the address of its header map in
  a `Heap` and the functions that write through it pass the heap along.
* A Go `error` result is an `Option String` (`none` for `nil`) carrying the
  text of the error.
* The functions of the Go standard library whose code is not part of the
  repository (`json.Unmarshal`, `net.SplitHostPort`, `url.Parse`,
  `URL.String`, `textproto.CanonicalMIMEHeaderKey`) are the fields of `Lib`;
  the general theorems hold for every `Lib`.
-/

namespace ProxyCollector

/-! ## Strings -/

/-- Go `strings.HasPrefix(s, prefix)`. -/
def HasPrefix (s pre : String) : Bool :=
  pre.data.isPrefixOf s.data

/-- Go `strings.HasSuffix(s, suffix)`. -/
def HasSuffix (s suffix : String) : Bool :=
  suffix.data.reverse.isPrefixOf s.data.reverse

/-- Whether `sub` occurs in `s` at some position, over lists of characters. -/
def containsChars : List Char → List Char → Bool
  | [], sub => sub.isEmpty
  | c :: cs, sub => sub.isPrefixOf (c :: cs) || containsChars cs sub

/-- Go `strings.Contains(s, substr)`. -/
def Contains (s substr : String) : Bool :=
  containsChars s.data substr.data

/-- Go `strings.Join(a, sep)`. -/
def Join : List String → String → String
  | [], _ => ""
  | [a], _ => a
  | a :: b :: rest, sep => a ++ sep ++ Join (b :: rest) sep

/-- Go slice expression `s[1:]` on a non-empty string. -/
def sliceFrom1 (s : String) : String :=
  String.mk (s.data.drop 1)

/-! ## URLs and the director -/

/-- Go `url.URL` (the fields of Go 1.4). -/
structure URL where
  Scheme : String
  Opaque : String
  User : Option String
  Host : String
  Path : String
  RawQuery : String
  Fragment : String
  deriving DecidableEq, Repr

/-- `singleJoiningSlash` of `proxy.go`. -/
def singleJoiningSlash (a b : String) : String :=
  let aslash := HasSuffix a "/"
  let bslash := HasPrefix b "/"
  if aslash && bslash then a ++ sliceFrom1 b
  else if !aslash && !bslash then a ++ "/" ++ b
  else a ++ b

/-! ## Configuration (`src/cmd/proxy-collector/config.go`) -/

/-- Go `proxy.BodyFallback`, an `int`. -/
abbrev BodyFallback := Int

/-- Constant `BodyFallbackNone` (`iota` = 0). -/
def BodyFallbackNone : BodyFallback := 0

/-- Constant `BodyFallbackJsonEncode` (`iota` = 1). -/
def BodyFallbackJsonEncode : BodyFallback := 1

/-- Go `Config` of `config.go`. -/
structure Config where
  TargetList : List String
  BodyFallback : BodyFallback
  deriving DecidableEq, Repr

/-! ## The standard library and the operating system -/

/-- The functions the repository calls and does not define. `none` and
`Except.error` stand for a non-nil Go `error`. -/
structure Lib where
  /-- Whether `json.Unmarshal(body, &tmp)` into an `interface{}` returns `nil`. -/
  Unmarshal : List Nat → Bool
  /-- Decoding the empty input fails (unexpected end of JSON input). -/
  Unmarshal_nil : Unmarshal [] = false
  /-- Go `net.SplitHostPort`: host and port, or `none` on error. -/
  SplitHostPort : String → Option (String × String)
  /-- Go `textproto.CanonicalMIMEHeaderKey`. -/
  CanonicalMIMEHeaderKey : String → String
  /-- Go `url.Parse`. -/
  Parse : String → Except String URL
  /-- Go `(*url.URL).String`. -/
  URLString : URL → String
  /-- `os.Open(p)` followed by `json.NewDecoder(f).Decode(&c)` in `LoadConfig`. -/
  DecodeFile : String → Except String Config

/-! ## Maps -/

/-- Go `m[k]` with the comma-ok form: the value stored under `k`, if any. -/
def mapGet {α : Type} : List (String × α) → String → Option α
  | [], _ => none
  | (k', v) :: rest, k => if k' = k then some v else mapGet rest k

/-- Go `m[k] = v`. -/
def mapSet {α : Type} : List (String × α) → String → α → List (String × α)
  | [], k, v => [(k, v)]
  | (k', v') :: rest, k, v =>
    if k' = k then (k, v) :: rest else (k', v') :: mapSet rest k v

/-- Go `delete(m, k)`. -/
def mapDel {α : Type} (m : List (String × α)) (k : String) : List (String × α) :=
  m.filter (fun e => decide (e.1 ≠ k))

/-! ## Headers (`net/http`, `net/textproto`) -/

/-- Go `http.Header`, a `map[string][]string`. -/
abbrev Header := List (String × List String)

/-- Go `Header.Add`: append `value` to the values of the canonical key. -/
def Header.Add (lib : Lib) (h : Header) (key value : String) : Header :=
  let key := lib.CanonicalMIMEHeaderKey key
  mapSet h key ((mapGet h key).getD [] ++ [value])

/-- Go `Header.Set`: the canonical key gets the single value `value`. -/
def Header.Set (lib : Lib) (h : Header) (key value : String) : Header :=
  mapSet h (lib.CanonicalMIMEHeaderKey key) [value]

/-- Go `Header.Get`: the first value of the canonical key, `""` if there is
none. -/
def Header.Get (lib : Lib) (h : Header) (key : String) : String :=
  match mapGet h (lib.CanonicalMIMEHeaderKey key) with
  | some (v :: _) => v
  | _ => ""

/-- Go `Header.Del`. -/
def Header.Del (lib : Lib) (h : Header) (key : String) : Header :=
  mapDel h (lib.CanonicalMIMEHeaderKey key)

/-! ## The heap of header maps -/

/-- The header maps allocated so far; a reference to a map is its index. -/
abbrev Heap := List Header

/-- The map a reference points to. -/
def Heap.read (heap : Heap) (ref : Nat) : Header :=
  heap.getD ref []

/-- Replace the map a reference points to. -/
def Heap.write (heap : Heap) (ref : Nat) (h : Header) : Heap :=
  heap.set ref h

/-- Go `make(http.Header)`: a fresh empty map and its reference. -/
def Heap.alloc (heap : Heap) : Heap × Nat :=
  (heap ++ [[]], heap.length)

/-! ## Requests -/

/-- Go `http.Request`: the fields the proxy reads or writes. `Header` is the
reference to the header map. -/
structure Request where
  Method : String
  URL : URL
  Proto : String
  ProtoMajor : Nat
  ProtoMinor : Nat
  Header : Nat
  Close : Bool
  Host : String
  RemoteAddr : String
  deriving DecidableEq, Repr

/-- Variable `hopHeaders` of `proxy.go`. -/
def hopHeaders : List String :=
  ["Connection", "Keep-Alive", "Proxy-Authenticate", "Proxy-Authorization",
   "Te", "Trailers", "Transfer-Encoding", "Upgrade"]

/-- `copyHeader(dst, src)` of `proxy.go`, on the maps `dst` and `src` point to. -/
def copyHeader (lib : Lib) (heap : Heap) (dst src : Nat) : Heap :=
  (heap.read src).foldl
    (fun heap kvv =>
      kvv.2.foldl (fun heap v => heap.write dst (Header.Add lib (heap.read dst) kvv.1 v)) heap)
    heap

/-- One turn of the loop over `hopHeaders` in `cloneRequest`. The state is the
heap, the reference in `outreq.Header` and the flag `copiedHeaders`. -/
def removeHop (lib : Lib) (req : Request) (st : Heap × Nat × Bool) (h : String) :
    Heap × Nat × Bool :=
  if Header.Get lib (st.1.read st.2.1) h ≠ "" then
    let st1 : Heap × Nat :=
      if !st.2.2 then
        let fresh := st.1.alloc
        (copyHeader lib fresh.1 fresh.2 req.Header, fresh.2)
      else (st.1, st.2.1)
    (st1.1.write st1.2 (Header.Del lib (st1.1.read st1.2) h), st1.2, true)
  else st

/-- `cloneRequest` of `proxy.go`: the outbound request and the heap after the
call. -/
def cloneRequest (lib : Lib) (heap : Heap) (req : Request) : Request × Heap :=
  let outreq := { req with Proto := "HTTP/1.1", ProtoMajor := 1, ProtoMinor := 1, Close := false }
  let st := hopHeaders.foldl (removeHop lib req) (heap, outreq.Header, false)
  let heap := st.1
  let outreq := { outreq with Header := st.2.1 }
  match lib.SplitHostPort req.RemoteAddr with
  | some (clientIP, _) =>
    let clientIP :=
      match mapGet (heap.read outreq.Header) "X-Forwarded-For" with
      | some prior => Join prior ", " ++ ", " ++ clientIP
      | none => clientIP
    (outreq, heap.write outreq.Header
      (Header.Set lib (heap.read outreq.Header) "X-Forwarded-For" clientIP))
  | none => (outreq, heap)

/-- `director` of `proxy.go`: the URL of the outbound request. -/
def director (target : URL) (req : Request) : URL :=
  let targetQuery := target.RawQuery
  let url := req.URL
  let url := { url with Scheme := target.Scheme }
  let url := { url with Host := target.Host }
  let url := { url with Path := singleJoiningSlash target.Path url.Path }
  if targetQuery = "" ∨ url.RawQuery = "" then
    { url with RawQuery := targetQuery ++ url.RawQuery }
  else
    { url with RawQuery := targetQuery ++ "&" ++ url.RawQuery }

/-! ## Responses and the body normalizer -/

/-- Go `io.ReadCloser` holding a response body: the bytes a read to the end
delivers and the error, if any, that ends the read. -/
structure ReadCloser where
  data : List Nat
  err : Option String
  deriving DecidableEq, Repr

/-- Go `http.Response`: the fields the proxy reads. -/
structure Response where
  StatusCode : Int
  ContentLength : Int
  Header : Header
  Body : ReadCloser
  deriving DecidableEq, Repr

/-- Go `ioutil.ReadAll`: the bytes read (a non-nil slice) and the error, and
the reader after the call, which has no byte left to deliver. -/
def ReadAll (r : ReadCloser) : (Option (List Nat) × Option String) × ReadCloser :=
  ((some r.data, r.err), { data := [], err := r.err })

/-- The bytes of a string of ASCII characters. -/
def asciiBytes (s : String) : List Nat :=
  s.data.map Char.toNat

/-- Alphabet of Go `base64.StdEncoding`. -/
def encodeStd : String :=
  "ABCDEFGHIJKLMNOPQRSTUVWXYZabcdefghijklmnopqrstuvwxyz0123456789+/"

/-- The byte that encodes the six-bit value `n % 64`. -/
def encodeStdByte (n : Nat) : Nat :=
  (encodeStd.data.getD (n % 64) 'A').toNat

/-- Go `base64.StdEncoding.EncodeToString`, as bytes: three bytes give four
characters, the last group is padded with `=` (61). -/
def EncodeToString : List Nat → List Nat
  | [] => []
  | [a] =>
    let v := (a % 256) * 65536
    [encodeStdByte (v / 262144), encodeStdByte (v / 4096), 61, 61]
  | [a, b] =>
    let v := (a % 256) * 65536 + (b % 256) * 256
    [encodeStdByte (v / 262144), encodeStdByte (v / 4096), encodeStdByte (v / 64), 61]
  | a :: b :: c :: rest =>
    let v := (a % 256) * 65536 + (b % 256) * 256 + c % 256
    [encodeStdByte (v / 262144), encodeStdByte (v / 4096), encodeStdByte (v / 64),
      encodeStdByte v] ++ EncodeToString rest

/-- Go `json.NewEncoder(&b).Encode(body)` for a `[]byte`, read back with
`b.Bytes()`: `null` for a nil slice, else the base64 text between two double
quotes (34); the encoder ends its output with a line feed (10). -/
def Encode (body : Option (List Nat)) : List Nat :=
  match body with
  | none => asciiBytes "null" ++ [10]
  | some b => [34] ++ EncodeToString b ++ [34, 10]

/-- Go `http.RoundTripper` of the proxy: the outcome of the round trip of the
worker of `target` sending `req` with the header map `hdr`. The target is an
argument so that two workers that send equal requests may see different
outcomes. -/
abbrev RoundTripper := String → Request → Header → Except String Response

/-- Go `Proxy` of `proxy.go` (without the lock `M`). -/
structure Proxy where
  TargetList : List URL
  Transport : RoundTripper
  BodyFallback : BodyFallback

/-- The code after label `fallback` in `responseBodyToJsonBody`, entered with
the current values of the results `body` and `err`; `res.Body` is the reader
in its current state. -/
def fallback (p : Proxy) (res : Response) (body : Option (List Nat)) (err : Option String) :
    Option (List Nat) × Option String :=
  if p.BodyFallback = BodyFallbackNone then
    (some [34, 34], err)
  else if p.BodyFallback = BodyFallbackJsonEncode then
    let r := if body = none then (ReadAll res.Body).1 else (body, err)
    match r.2 with
    | some e => (none, some ("read body err:" ++ e))
    | none => (some (Encode r.1), none)
  else
    (body, some ("not supported fallback type:" ++ toString p.BodyFallback))

/-- `Proxy.responseBodyToJsonBody` of `proxy.go`: the results `body` and `err`. -/
def responseBodyToJsonBody (lib : Lib) (p : Proxy) (res : Response) :
    Option (List Nat) × Option String :=
  if res.ContentLength ≤ 0 then
    fallback p res none none
  else
    let contentType := Header.Get lib res.Header "Content-Type"
    if Contains contentType "application/json" then
      let r := ReadAll res.Body
      let body := r.1.1
      match r.1.2 with
      | some e => (body, some ("read body err:" ++ e))
      | none =>
        if lib.Unmarshal (body.getD []) then (body, none)
        else fallback p { res with Body := r.2 } body none
    else
      fallback p res none none

/-! ## The dispatcher and the aggregator -/

/-- Go `JsonItem` of `proxy.go`; `Body` is a `json.RawMessage`. -/
structure JsonItem where
  Target : String
  Body : Option (List Nat)
  StatusCode : Int
  deriving DecidableEq, Repr

/-- The first loop of `ServeHTTP`: `targetReqMap` after the targets of the list
have been visited in order, and the heap. -/
def buildTargetReqMap (lib : Lib) (req : Request) :
    List URL → Heap → List (String × Request) → List (String × Request) × Heap
  | [], heap, targetReqMap => (targetReqMap, heap)
  | target :: rest, heap, targetReqMap =>
    let c := cloneRequest lib heap req
    let outreq := { c.1 with URL := director target req }
    buildTargetReqMap lib req rest c.2 (mapSet targetReqMap (lib.URLString target) outreq)

/-- The body of the goroutine that `ServeHTTP` starts for one entry of
`targetReqMap`: the item it sends on `itemChan`, or `none` when the round trip
fails. The header map is read from the heap as it is once the first loop is
over. -/
def worker (lib : Lib) (p : Proxy) (heap : Heap) (target : String) (req : Request) :
    Option JsonItem :=
  match p.Transport target req (heap.read req.Header) with
  | .error _ => none
  | .ok res =>
    let r := responseBodyToJsonBody lib p res
    some { Target := target, StatusCode := res.StatusCode, Body := r.1 }

/-- The items the workers of `ServeHTTP` send, listed in the order of
`targetReqMap`. -/
def sentItems (lib : Lib) (p : Proxy) (heap : Heap) (req : Request) : List JsonItem :=
  let m := buildTargetReqMap lib req p.TargetList heap []
  m.1.filterMap (fun e => worker lib p m.2 e.1 e.2)

/-- `Proxy.ServeHTTP` of `proxy.go` up to the slice `items`: the workers run
concurrently, so `items` holds what they send in some order of completion. -/
def ServeHTTP (lib : Lib) (p : Proxy) (heap : Heap) (req : Request) (items : List JsonItem) :
    Prop :=
  items.Perm (sentItems lib p heap req)

/-! ## Loading and reloading the configuration -/

/-- `Config.validate` of `config.go`: the error, `none` for `nil`. -/
def Config.validate (c : Config) : Option String :=
  if c.TargetList.length ≤ 0 then
    some "target_list is empty"
  else if c.BodyFallback = BodyFallbackNone ∨ c.BodyFallback = BodyFallbackJsonEncode then
    none
  else
    some ("not support body fallback mode:" ++ toString c.BodyFallback)

/-- The loop of `Config.TargetListAsURL` over the targets still to parse, with
the list built so far. -/
def parseTargets (lib : Lib) : List String → List URL → Except String (List URL)
  | [], targetList => .ok targetList
  | target :: rest, targetList =>
    match lib.Parse target with
    | .error e => .error e
    | .ok u => parseTargets lib rest (targetList ++ [u])

/-- `Config.TargetListAsURL` of `config.go`. -/
def Config.TargetListAsURL (lib : Lib) (c : Config) : Except String (List URL) :=
  parseTargets lib c.TargetList []

/-- `LoadConfig` of `config.go`. -/
def LoadConfig (lib : Lib) (p : String) : Except String Config :=
  match lib.DecodeFile p with
  | .error e => .error e
  | .ok c =>
    match c.validate with
    | some e => .error e
    | none => .ok c

/-- The `syscall.SIGHUP` case of the signal loop of `_main` in `main.go`: the
proxy `h` after the signal has been handled, `config` being the path of the
configuration file. -/
def reload (lib : Lib) (config : String) (h : Proxy) : Proxy :=
  match LoadConfig lib config with
  | .error _ => h
  | .ok c =>
    match c.TargetListAsURL lib with
    | .error _ => h
    | .ok targetList =>
      let h := { h with TargetList := targetList }
      { h with BodyFallback := h.BodyFallback }

/-! ## A concrete library

The definitions above run once a `Lib` is given. `goLib` follows the Go
functions on the inputs the repository's tests and the examples below use:
JSON texts, addresses `host:port`, header keys made of letters and dashes, and
URLs `scheme://host/path?query` without escapes. -/

/-- JSON white space: space, tab, carriage return, line feed. -/
def isSpace (c : Nat) : Bool :=
  c = 32 || c = 9 || c = 13 || c = 10

/-- Drop leading JSON white space. -/
def skipSpace : List Nat → List Nat
  | [] => []
  | c :: r => if isSpace c then skipSpace r else c :: r

/-- An ASCII decimal digit. -/
def isDigit (c : Nat) : Bool :=
  48 ≤ c && c ≤ 57

/-- An ASCII hexadecimal digit. -/
def isHex (c : Nat) : Bool :=
  isDigit c || (97 ≤ c && c ≤ 102) || (65 ≤ c && c ≤ 70)

/-- Drop leading digits. -/
def skipDigits : List Nat → List Nat
  | [] => []
  | c :: r => if isDigit c then skipDigits r else c :: r

/-- Scan a JSON string after its opening quote: the input after the closing
quote. `fuel` bounds the number of bytes read. -/
def scanString : Nat → List Nat → Option (List Nat)
  | 0, _ => none
  | _, [] => none
  | fuel + 1, c :: r =>
    if c = 34 then some r
    else if c = 92 then
      match r with
      | [] => none
      | e :: r2 =>
        if e = 117 then
          match r2 with
          | h1 :: h2 :: h3 :: h4 :: r3 =>
            if isHex h1 && isHex h2 && isHex h3 && isHex h4 then scanString fuel r3 else none
          | _ => none
        else if e = 34 || e = 92 || e = 47 || e = 98 || e = 102 || e = 110 || e = 114 || e = 116
        then scanString fuel r2
        else none
    else if c < 32 then none
    else scanString fuel r

/-- At least one digit, then the digits that follow. -/
def scanDigits1 (s : List Nat) : Option (List Nat) :=
  match s with
  | [] => none
  | c :: r => if isDigit c then some (skipDigits r) else none

/-- The optional exponent of a JSON number. -/
def scanExp (s : List Nat) : Option (List Nat) :=
  match s with
  | [] => some []
  | c :: r =>
    if c = 101 || c = 69 then
      match r with
      | [] => none
      | d :: r2 => if d = 43 || d = 45 then scanDigits1 r2 else scanDigits1 (d :: r2)
    else some (c :: r)

/-- The optional fraction and exponent of a JSON number. -/
def scanFrac (s : List Nat) : Option (List Nat) :=
  match s with
  | [] => some []
  | c :: r =>
    if c = 46 then (scanDigits1 r).bind scanExp else scanExp (c :: r)

/-- Scan a JSON number. -/
def scanNumber (s : List Nat) : Option (List Nat) :=
  let s := match s with
    | [] => []
    | c :: r => if c = 45 then r else c :: r
  match s with
  | [] => none
  | c :: r =>
    if c = 48 then scanFrac r
    else if isDigit c then scanFrac (skipDigits r)
    else none

/-- Strip the bytes of `lit` from the front of the input. -/
def scanLiteral (lit : String) (s : List Nat) : Option (List Nat) :=
  if (asciiBytes lit).isPrefixOf s then some (s.drop lit.length) else none

mutual

/-- Scan one JSON value: the input after it. -/
def scanValue : Nat → List Nat → Option (List Nat)
  | 0, _ => none
  | fuel + 1, s =>
    match skipSpace s with
    | [] => none
    | c :: r =>
      if c = 123 then
        match skipSpace r with
        | [] => none
        | d :: r2 => if d = 125 then some r2 else scanMembers fuel (d :: r2)
      else if c = 91 then
        match skipSpace r with
        | [] => none
        | d :: r2 => if d = 93 then some r2 else scanElements fuel (d :: r2)
      else if c = 34 then scanString (r.length + 1) r
      else if c = 116 then scanLiteral "true" (c :: r)
      else if c = 102 then scanLiteral "false" (c :: r)
      else if c = 110 then scanLiteral "null" (c :: r)
      else scanNumber (c :: r)

/-- Scan the members of an object after its opening brace, up to and with the
closing brace. -/
def scanMembers : Nat → List Nat → Option (List Nat)
  | 0, _ => none
  | fuel + 1, s =>
    match skipSpace s with
    | [] => none
    | c :: r =>
      if c = 34 then
        match (scanString (r.length + 1) r).map skipSpace with
        | some (d :: r2) =>
          if d = 58 then
            match (scanValue fuel r2).map skipSpace with
            | some (e :: r3) =>
              if e = 44 then scanMembers fuel r3
              else if e = 125 then some r3
              else none
            | _ => none
          else none
        | _ => none
      else none

/-- Scan the elements of an array after its opening bracket, up to and with
the closing bracket. -/
def scanElements : Nat → List Nat → Option (List Nat)
  | 0, _ => none
  | fuel + 1, s =>
    match (scanValue fuel s).map skipSpace with
    | some (e :: r) =>
      if e = 44 then scanElements fuel r
      else if e = 93 then some r
      else none
    | _ => none

end

/-- The syntax check of `encoding/json` (`checkValid`): one JSON value between
optional white space. `json.Unmarshal` into an `interface{}` succeeds on the
texts this check accepts, except for a number outside the range of a
`float64` (such as `1e999`), which it rejects after the check. -/
def checkValid (data : List Nat) : Bool :=
  match scanValue (2 * data.length + 2) data with
  | some rest => skipSpace rest = []
  | none => false

/-- The index of the last `c` in `s`. -/
def lastIndex (s : List Char) (c : Char) : Option Nat :=
  match s.reverse.indexOf? c with
  | some i => some (s.length - 1 - i)
  | none => none

/-- Go `net.SplitHostPort`. -/
def SplitHostPort (hostport : String) : Option (String × String) :=
  let s := hostport.data
  match lastIndex s ':' with
  | none => none
  | some i =>
    if s.head? = some '[' then
      match s.indexOf? ']' with
      | none => none
      | some close =>
        if close + 1 = i then
          if (s.drop 1).contains '[' || (s.drop (close + 1)).contains ']' then none
          else some (String.mk ((s.take close).drop 1), String.mk (s.drop (i + 1)))
        else none
    else
      let host := s.take i
      if host.contains ':' || host.contains '%' then none
      else if s.contains '[' || s.contains ']' then none
      else some (String.mk host, String.mk (s.drop (i + 1)))

/-- The loop of `canonicalMIMEHeaderKey`: upper case for the first letter and
for a letter after a dash, lower case elsewhere. -/
def canonicalLoop : Bool → List Char → List Char
  | _, [] => []
  | upper, c :: r =>
    let c :=
      if upper && c.isLower then c.toUpper
      else if !upper && c.isUpper then c.toLower
      else c
    c :: canonicalLoop (c = '-') r

/-- Go `textproto.CanonicalMIMEHeaderKey` on keys made of letters, digits and
dashes. -/
def CanonicalMIMEHeaderKey (s : String) : String :=
  String.mk (canonicalLoop true s.data)

/-- Split a list at the first `c`: what stands before it and, when `c` occurs,
what stands after it. -/
def cut (s : List Char) (c : Char) : List Char × Option (List Char) :=
  match s.indexOf? c with
  | some i => (s.take i, some (s.drop (i + 1)))
  | none => (s, none)

/-- Split `scheme://rest`: the scheme and the rest, when the text starts with
letters followed by `://`. -/
def cutScheme (s : List Char) : Option (List Char × List Char) :=
  match s.indexOf? ':' with
  | some i =>
    if 0 < i && (s.take i).all Char.isAlpha && (s.drop (i + 1)).take 2 = ['/', '/'] then
      some (s.take i, s.drop (i + 3))
    else none
  | none => none

/-- Go `url.Parse` on `scheme://host/path?query#fragment` and on a bare path,
without escapes or user information; the scheme is put in lower case. -/
def Parse (rawurl : String) : Except String URL :=
  let f := cut rawurl.data '#'
  let q := cut f.1 '?'
  let frag := String.mk (f.2.getD [])
  let query := String.mk (q.2.getD [])
  if q.1.head? = some ':' then .error "missing protocol scheme"
  else
    match cutScheme q.1 with
    | some (scheme, rest) =>
      let i := (rest.indexOf? '/').getD rest.length
      .ok { Scheme := String.mk (scheme.map Char.toLower), Opaque := "", User := none,
            Host := String.mk (rest.take i), Path := String.mk (rest.drop i),
            RawQuery := query, Fragment := frag }
    | none =>
      .ok { Scheme := "", Opaque := "", User := none, Host := "", Path := String.mk q.1,
            RawQuery := query, Fragment := frag }

/-- Go `(*url.URL).String` on URLs whose parts need no escape. -/
def URLString (u : URL) : String :=
  let scheme := if u.Scheme ≠ "" then u.Scheme ++ ":" else ""
  let rest :=
    if u.Opaque ≠ "" then u.Opaque
    else
      let auth :=
        if u.Scheme ≠ "" ∨ u.Host ≠ "" ∨ u.User ≠ none then
          "//" ++ (match u.User with | some ui => ui ++ "@" | none => "") ++ u.Host
        else ""
      let slash := if u.Path ≠ "" ∧ ¬ HasPrefix u.Path "/" ∧ u.Host ≠ "" then "/" else ""
      auth ++ slash ++ u.Path
  let query := if u.RawQuery ≠ "" then "?" ++ u.RawQuery else ""
  let frag := if u.Fragment ≠ "" then "#" ++ u.Fragment else ""
  scheme ++ rest ++ query ++ frag

/-- The concrete library, with a file system that holds no file. Its
`Unmarshal` is the syntax check alone, which is `json.Unmarshal` on texts
without a number outside the range of a `float64`. -/
def goLib : Lib where
  Unmarshal := checkValid
  Unmarshal_nil := by decide
  SplitHostPort := SplitHostPort
  CanonicalMIMEHeaderKey := CanonicalMIMEHeaderKey
  Parse := Parse
  URLString := URLString
  DecodeFile := fun _ => .error "no such file or directory"

/-- The library `lib` with a file system in which the file `path` holds a JSON
text that decodes to `c`. -/
def withFile (lib : Lib) (path : String) (c : Config) : Lib :=
  { lib with DecodeFile := fun p => if p = path then .ok c else lib.DecodeFile p }

/-! ## Standard base64

The encoding the specification names, written after section 4 of RFC 4648 and
independently of `EncodeToString`: the octets are read as one stream of bits,
the stream is cut into groups of six bits, each group is the index of a
character in the alphabet of Table 1, and `=` pads the text to a multiple of
four characters. -/

/-- RFC 4648: the eight bits of an octet, the most significant first. -/
def octetBits (b : Nat) : List Bool :=
  [b.testBit 7, b.testBit 6, b.testBit 5, b.testBit 4, b.testBit 3, b.testBit 2, b.testBit 1,
    b.testBit 0]

/-- RFC 4648: the input as a stream of bits, from left to right. -/
def bitStream : List Nat → List Bool
  | [] => []
  | b :: rest => octetBits b ++ bitStream rest

/-- RFC 4648: the stream cut into groups of six bits; when fewer than six bits
remain, bits with value zero are added on the right. -/
def sixBitGroups : List Bool → List (List Bool)
  | b1 :: b2 :: b3 :: b4 :: b5 :: b6 :: rest => [b1, b2, b3, b4, b5, b6] :: sixBitGroups rest
  | [b1, b2, b3, b4, b5] => [[b1, b2, b3, b4, b5, false]]
  | [b1, b2, b3, b4] => [[b1, b2, b3, b4, false, false]]
  | [b1, b2, b3] => [[b1, b2, b3, false, false, false]]
  | [b1, b2] => [[b1, b2, false, false, false, false]]
  | [b1] => [[b1, false, false, false, false, false]]
  | [] => []

/-- The number a group of bits denotes, the most significant bit first. -/
def bitsValue (bits : List Bool) : Nat :=
  bits.foldl (fun n b => 2 * n + b.toNat) 0

/-- RFC 4648, Table 1: the values 0 to 25 are `A` to `Z` (from 65), 26 to 51
are `a` to `z` (from 97), 52 to 61 are `0` to `9` (from 48), 62 is `+` (43)
and 63 is `/` (47). -/
def base64Alphabet (i : Nat) : Nat :=
  if i < 26 then 65 + i
  else if i < 52 then 97 + (i - 26)
  else if i < 62 then 48 + (i - 52)
  else if i = 62 then 43
  else 47

/-- RFC 4648: the characters of the six-bit groups of the input. -/
def base64Chars (data : List Nat) : List Nat :=
  (sixBitGroups (bitStream data)).map (fun g => base64Alphabet (bitsValue g))

/-- RFC 4648: the standard base64 text of `data`, the characters of its groups
followed by the `=` (61) that make the length a multiple of four. -/
def StdBase64 (data : List Nat) : List Nat :=
  base64Chars data ++ List.replicate ((4 - (base64Chars data).length % 4) % 4) 61

/-- RFC 4648, Table 1 read backwards: the value of a character of the
alphabet, `none` for any other byte. -/
def base64Value (c : Nat) : Option Nat :=
  if 65 ≤ c ∧ c ≤ 90 then some (c - 65)
  else if 97 ≤ c ∧ c ≤ 122 then some (c - 97 + 26)
  else if 48 ≤ c ∧ c ≤ 57 then some (c - 48 + 52)
  else if c = 43 then some 62
  else if c = 47 then some 63
  else none

/-- RFC 4648: decoding of a padded standard base64 text, four characters at a
time; a last group ending in `==` holds one octet, one ending in `=` holds
two. `none` for a text that is not of this form. -/
def StdBase64Decode : List Nat → Option (List Nat)
  | [] => some []
  | c1 :: c2 :: c3 :: c4 :: rest =>
    match base64Value c1, base64Value c2 with
    | some s1, some s2 =>
      if c3 = 61 ∧ c4 = 61 ∧ rest = [] then some [s1 * 4 + s2 / 16]
      else
        match base64Value c3 with
        | some s3 =>
          if c4 = 61 ∧ rest = [] then some [s1 * 4 + s2 / 16, s2 % 16 * 16 + s3 / 4]
          else
            match base64Value c4, StdBase64Decode rest with
            | some s4, some tail =>
              some ((s1 * 4 + s2 / 16) :: (s2 % 16 * 16 + s3 / 4) :: (s3 % 4 * 64 + s4) :: tail)
            | _, _ => none
        | none => none
    | _, _ => none
  | _ => none

/-! ## JSON strings -/

/-- The content of a JSON text that is one string without escapes, followed by
optional white space: the bytes between the two double quotes. `none` for any
other text. -/
def jsonStringContent (text : List Nat) : Option (List Nat) :=
  match text with
  | [] => none
  | q :: r =>
    let content := r.takeWhile (fun c => c != 34)
    let rest := r.dropWhile (fun c => c != 34)
    if q = 34 ∧ content.all (fun c => decide (32 ≤ c) && c != 92) = true ∧
        rest.head? = some 34 ∧ (rest.drop 1).all isSpace = true then
      some content
    else none

/-! ## Inputs of the examples

The responses of the backends of `proxy_test.go`, as the transport delivers
them. -/

/-- The body of `TestProxyValidJson`. -/
def pingPong : List Nat :=
  asciiBytes "\x7b\"ping\":\"pong\"\x7d"

/-- The body of `TestProxyInvalidJson`: the closing brace is missing. -/
def invalidJson : List Nat :=
  asciiBytes "\x7b\"ping\":\"pong\""

/-- The body of `TestProxyNotJsonContent`. -/
def notFound : List Nat :=
  asciiBytes "not found"

/-- The response of the backend of `TestProxyValidJson`. -/
def validJsonResponse : Response :=
  { StatusCode := 200, ContentLength := 15,
    Header := [("Content-Type", ["application/json"])],
    Body := { data := pingPong, err := none } }

/-- The same JSON body sent with chunked transfer encoding: the length is not
known, which Go reports as `ContentLength` -1. -/
def chunkedJsonResponse : Response :=
  { StatusCode := 200, ContentLength := -1,
    Header := [("Content-Type", ["application/json"])],
    Body := { data := pingPong, err := none } }

/-- The response of the backend of `TestProxyInvalidJson`. -/
def invalidJsonResponse : Response :=
  { StatusCode := 200, ContentLength := 14,
    Header := [("Content-Type", ["application/json"])],
    Body := { data := invalidJson, err := none } }

/-- The response of the backend of `TestProxyNotJsonContent`. -/
def notJsonResponse : Response :=
  { StatusCode := 404, ContentLength := 9,
    Header := [("Content-Type", ["text/plain; charset=utf-8"])],
    Body := { data := notFound, err := none } }

/-- A response with the two bytes 251 and 255, whose base64 text `+/8=` uses
the last two characters of the alphabet and the padding. -/
def binaryResponse : Response :=
  { StatusCode := 200, ContentLength := 2,
    Header := [("Content-Type", ["application/octet-stream"])],
    Body := { data := [251, 255], err := none } }

/-- A proxy with one target that answers `res`, in the fallback mode `mode`. -/
def testProxy (mode : BodyFallback) (res : Response) : Proxy :=
  { TargetList :=
      [{ Scheme := "http", Opaque := "", User := none, Host := "127.0.0.1:8001", Path := "",
         RawQuery := "", Fragment := "" }],
    Transport := fun _ _ _ => .ok res,
    BodyFallback := mode }

/-- An inbound `GET /` from the client `192.0.2.1`, whose header map is the
first map of the heap. -/
def inbound : Request :=
  { Method := "GET",
    URL := { Scheme := "", Opaque := "", User := none, Host := "", Path := "/", RawQuery := "",
             Fragment := "" },
    Proto := "HTTP/1.1", ProtoMajor := 1, ProtoMinor := 1, Header := 0, Close := false,
    Host := "some-name", RemoteAddr := "192.0.2.1:1234" }

/-- A heap in which the inbound request has no hop-by-hop header. -/
def plainHeap : Heap :=
  [[("Accept", ["*/*"])]]

/-- A heap in which the inbound request has the header `Connection: close`, as
in `TestReverseProxy`. -/
def hopHeap : Heap :=
  [[("Connection", ["close"]), ("Accept", ["*/*"])]]

/-- A heap in which the inbound request has two `Connection` header lines, the
first with an empty value and the second with the value `close`. -/
def emptyHopHeap : Heap :=
  [[("Connection", ["", "close"]), ("Accept", ["*/*"])]]

/-- The target `http://127.0.0.1:8001`. -/
def targetA : URL :=
  { Scheme := "http", Opaque := "", User := none, Host := "127.0.0.1:8001", Path := "",
    RawQuery := "", Fragment := "" }

/-- The target `http://127.0.0.1:8002`. -/
def targetB : URL :=
  { Scheme := "http", Opaque := "", User := none, Host := "127.0.0.1:8002", Path := "",
    RawQuery := "", Fragment := "" }

/-- A proxy whose target list names the same backend twice; the backend
answers every request. -/
def twiceProxy : Proxy :=
  { TargetList := [targetA, targetA],
    Transport := fun _ _ _ => .ok notJsonResponse,
    BodyFallback := BodyFallbackNone }

/-- The proxy of `TestProxyDownHost`: the first backend answers, the second is
closed. -/
def downHostProxy : Proxy :=
  { TargetList := [targetA, targetB],
    Transport := fun target _ _ =>
      if target = "http://127.0.0.1:8001" then .ok notJsonResponse
      else .error "connection refused",
    BodyFallback := BodyFallbackNone }

/-- The item of the backend `http://127.0.0.1:8001` answering with
`notJsonResponse` in the mode `None`. -/
def downHostItem : JsonItem :=
  { Target := "http://127.0.0.1:8001", Body := some [34, 34], StatusCode := 404 }

/-- A configuration file that selects the mode `JsonEncode`. -/
def reloadedConfig : Config :=
  { TargetList := ["http://example.com"], BodyFallback := 1 }

/-- The concrete library with `reloadedConfig` stored in `proxy-collector.json`. -/
def reloadLib : Lib :=
  withFile goLib "proxy-collector.json" reloadedConfig

/-- The header map each worker of `ServeHTTP` hands to the transport with its
request, for the targets `targets`. -/
def sentHeaders (lib : Lib) (targets : List URL) (heap : Heap) (req : Request) :
    List (String × Header) :=
  let m := buildTargetReqMap lib req targets heap []
  m.1.map (fun e => (e.1, m.2.read e.2.Header))

/-- Whether the round trip of the worker that `ServeHTTP` starts for the
target string `s` succeeds; `false` when no worker is started for `s`. -/
def reachable (lib : Lib) (p : Proxy) (heap : Heap) (req : Request) (s : String) : Bool :=
  let m := buildTargetReqMap lib req p.TargetList heap []
  match mapGet m.1 s with
  | some r => (p.Transport s r (m.2.read r.Header)).toBool
  | none => false

/-- A response with `Content-Type: application/json` whose connection breaks
after the first seven bytes of the fifteen it declares. -/
def brokenJsonResponse : Response :=
  { StatusCode := 200, ContentLength := 15,
    Header := [("Content-Type", ["application/json"])],
    Body := { data := asciiBytes "\x7b\"ping\"", err := some "unexpected EOF" } }

/-- A response that is not JSON whose connection breaks after the first three
bytes of the nine it declares. -/
def brokenTextResponse : Response :=
  { StatusCode := 404, ContentLength := 9,
    Header := [("Content-Type", ["text/plain; charset=utf-8"])],
    Body := { data := asciiBytes "not", err := some "unexpected EOF" } }

/-- The first case of `TestLoadConfig`: an empty target list. -/
def emptyListConfig : Config :=
  { TargetList := [], BodyFallback := 0 }

/-- The second case of `TestLoadConfig`: the mode 2. -/
def badModeConfig : Config :=
  { TargetList := ["http://example.com"], BodyFallback := 2 }

/-! ## Theorems -/

/-! ### The director -/

/-- `strings.HasPrefix(b, "/")` holds when the first character of `b` is a slash. -/
theorem HasPrefix_slash (b : String) : HasPrefix b "/" = true ↔ b.data.head? = some '/' := by
  unfold HasPrefix
  have h : "/".data = ['/'] := rfl
  rw [h]
  cases b.data with
  | nil => simp [List.isPrefixOf]
  | cons c r =>
    simp only [List.isPrefixOf, List.head?, Bool.and_true, beq_iff_eq, Option.some.injEq]
    exact eq_comm

/-- `strings.HasSuffix(a, "/")` holds when the last character of `a` is a slash. -/
theorem HasSuffix_slash (a : String) : HasSuffix a "/" = true ↔ a.data.getLast? = some '/' := by
  unfold HasSuffix
  have h : "/".data.reverse = ['/'] := rfl
  rw [h, ← List.head?_reverse]
  cases a.data.reverse with
  | nil => simp [List.isPrefixOf]
  | cons c r =>
    simp only [List.isPrefixOf, List.head?, Bool.and_true, beq_iff_eq, Option.some.injEq]
    exact eq_comm

/-- `strings.HasPrefix(b, "/")` fails when `b` does not start with a slash. -/
theorem HasPrefix_slash_false (b : String) :
    HasPrefix b "/" = false ↔ b.data.head? ≠ some '/' := by
  have h := HasPrefix_slash b
  rw [Ne, ← h, Bool.not_eq_true]

/-- `strings.HasSuffix(a, "/")` fails when `a` does not end with a slash. -/
theorem HasSuffix_slash_false (a : String) :
    HasSuffix a "/" = false ↔ a.data.getLast? ≠ some '/' := by
  have h := HasSuffix_slash a
  rw [Ne, ← h, Bool.not_eq_true]

/-- The path `director` builds is `singleJoiningSlash` of the target path and
the inbound path. -/
theorem director_Path (target : URL) (req : Request) :
    (director target req).Path = singleJoiningSlash target.Path req.URL.Path := by
  unfold director
  simp only
  split <;> rfl

/-- C8: the path of the URL built by `director` joins the target path `a` and
the inbound path `b` with one separating slash. When `a` ends with a slash and
`b` starts with one, the result is `a` followed by `b` without its first
character; when neither holds, a slash is inserted between them; when exactly
one holds, the result is `a` followed by `b` unchanged. -/
theorem singleJoiningSlash_one_slash (target : URL) (req : Request) :
    (target.Path.data.getLast? = some '/' ∧ req.URL.Path.data.head? = some '/' →
      (director target req).Path = target.Path ++ String.mk req.URL.Path.data.tail) ∧
    (target.Path.data.getLast? ≠ some '/' ∧ req.URL.Path.data.head? ≠ some '/' →
      (director target req).Path = target.Path ++ "/" ++ req.URL.Path) ∧
    (target.Path.data.getLast? = some '/' ∧ req.URL.Path.data.head? ≠ some '/' →
      (director target req).Path = target.Path ++ req.URL.Path) ∧
    (target.Path.data.getLast? ≠ some '/' ∧ req.URL.Path.data.head? = some '/' →
      (director target req).Path = target.Path ++ req.URL.Path) := by
  rw [director_Path]
  unfold singleJoiningSlash
  simp only [← HasPrefix_slash, ← HasSuffix_slash, ← HasPrefix_slash_false,
    ← HasSuffix_slash_false]
  refine ⟨?_, ?_, ?_, ?_⟩
  · rintro ⟨ha, hb⟩
    simp [ha, hb, sliceFrom1]
  · rintro ⟨ha, hb⟩
    simp [ha, hb]
  · rintro ⟨ha, hb⟩
    simp [ha, hb]
  · rintro ⟨ha, hb⟩
    simp [ha, hb]

/-- C9: the query of the URL built by `director` is the target query, `&` and
the inbound query when both are non-empty, the non-empty one alone when
exactly one is empty, and empty when both are empty. -/
theorem director_RawQuery (target : URL) (req : Request) :
    (target.RawQuery ≠ "" ∧ req.URL.RawQuery ≠ "" →
      (director target req).RawQuery = target.RawQuery ++ "&" ++ req.URL.RawQuery) ∧
    (target.RawQuery ≠ "" ∧ req.URL.RawQuery = "" →
      (director target req).RawQuery = target.RawQuery) ∧
    (target.RawQuery = "" ∧ req.URL.RawQuery ≠ "" →
      (director target req).RawQuery = req.URL.RawQuery) ∧
    (target.RawQuery = "" ∧ req.URL.RawQuery = "" →
      (director target req).RawQuery = "") := by
  unfold director
  refine ⟨?_, ?_, ?_, ?_⟩
  · rintro ⟨ha, hb⟩
    simp [ha, hb]
  · rintro ⟨ha, hb⟩
    simp [ha, hb]
  · rintro ⟨ha, hb⟩
    simp [ha, hb]
  · rintro ⟨ha, hb⟩
    simp [ha, hb]

/-! ### The body normalizer -/

/-- C1, as amended: for every response that declares a positive length, whose
`Content-Type` contains `application/json` and whose body is read without
error and decodes as JSON, and for every fallback mode,
`responseBodyToJsonBody` returns the bytes read and no error, and the worker
puts these bytes in the `Body` of its item. -/
theorem responseBodyToJsonBody_passthrough (lib : Lib) (p : Proxy) (res : Response)
    (hlen : 0 < res.ContentLength)
    (htype : Contains (Header.Get lib res.Header "Content-Type") "application/json" = true)
    (hread : res.Body.err = none)
    (hjson : lib.Unmarshal res.Body.data = true) :
    responseBodyToJsonBody lib p res = (some res.Body.data, none) ∧
    ∀ (heap : Heap) (target : String) (req : Request),
      p.Transport target req (heap.read req.Header) = .ok res →
      worker lib p heap target req =
        some { Target := target, Body := some res.Body.data, StatusCode := res.StatusCode } := by
  have h : responseBodyToJsonBody lib p res = (some res.Body.data, none) := by
    unfold responseBodyToJsonBody
    rw [if_neg (not_le.mpr hlen)]
    simp [htype, ReadAll, hread, hjson]
  refine ⟨h, ?_⟩
  intro heap target req hrt
  unfold worker
  rw [hrt]
  simp [h]

/-- C1, witness: the response of `TestProxyValidJson` in the mode `JsonEncode`. -/
theorem responseBodyToJsonBody_passthrough_witness :
    responseBodyToJsonBody goLib (testProxy BodyFallbackJsonEncode validJsonResponse)
        validJsonResponse = (some pingPong, none) ∧
    ∀ (heap : Heap) (target : String) (req : Request),
      (testProxy BodyFallbackJsonEncode validJsonResponse).Transport target req
          (heap.read req.Header) = .ok validJsonResponse →
      worker goLib (testProxy BodyFallbackJsonEncode validJsonResponse) heap target req =
        some { Target := target, Body := some pingPong, StatusCode := 200 } :=
  responseBodyToJsonBody_passthrough goLib (testProxy BodyFallbackJsonEncode validJsonResponse)
    validJsonResponse (by decide) (by decide) rfl (by decide)

/-- C1, counterexample: a response with `Content-Type: application/json` and
the well-formed body of `TestProxyValidJson`, sent without a declared length
(`ContentLength` -1). In the mode `None` the result is the two bytes of an
empty JSON string, not the body. -/
theorem responseBodyToJsonBody_unknown_length_not_passthrough :
    Contains (Header.Get goLib chunkedJsonResponse.Header "Content-Type") "application/json"
      = true ∧
    chunkedJsonResponse.Body.err = none ∧
    goLib.Unmarshal chunkedJsonResponse.Body.data = true ∧
    responseBodyToJsonBody goLib (testProxy BodyFallbackNone chunkedJsonResponse)
      chunkedJsonResponse = (some (asciiBytes "\"\""), none) ∧
    responseBodyToJsonBody goLib (testProxy BodyFallbackNone chunkedJsonResponse)
      chunkedJsonResponse ≠ (some chunkedJsonResponse.Body.data, none) := by
  decide

/-- In the mode `None` the code after `fallback` yields the empty JSON string,
whatever has been read. -/
theorem fallback_None (p : Proxy) (res : Response) (body : Option (List Nat))
    (hmode : p.BodyFallback = BodyFallbackNone) :
    fallback p res body none = (some [34, 34], none) := by
  unfold fallback
  rw [if_pos hmode]

/-- C2: in the mode `None`, for every response that declares no body (length
at most 0), or whose `Content-Type` does not contain `application/json`, or
whose body is read without error and is empty or does not decode as JSON,
`responseBodyToJsonBody` returns the two bytes of the JSON string `""` and no
error, whatever the bytes of the body are. -/
theorem responseBodyToJsonBody_fallback_None (lib : Lib) (p : Proxy) (res : Response)
    (hmode : p.BodyFallback = BodyFallbackNone)
    (h : res.ContentLength ≤ 0 ∨
      Contains (Header.Get lib res.Header "Content-Type") "application/json" = false ∨
      (res.Body.err = none ∧ res.Body.data = []) ∨
      (res.Body.err = none ∧ lib.Unmarshal res.Body.data = false)) :
    responseBodyToJsonBody lib p res = (some (asciiBytes "\"\""), none) := by
  have hq : asciiBytes "\"\"" = [34, 34] := by decide
  rw [hq]
  unfold responseBodyToJsonBody
  by_cases hlen : res.ContentLength ≤ 0
  · rw [if_pos hlen]
    exact fallback_None p res none hmode
  · rw [if_neg hlen]
    by_cases htype : Contains (Header.Get lib res.Header "Content-Type") "application/json" = true
    · have hbad : res.Body.err = none ∧ lib.Unmarshal res.Body.data = false := by
        rcases h with h | h | h | h
        · exact absurd h hlen
        · rw [htype] at h
          exact absurd h (by decide)
        · refine ⟨h.1, ?_⟩
          rw [h.2]
          exact lib.Unmarshal_nil
        · exact h
      simp only [htype, ReadAll, hbad.1, hbad.2, Option.getD_some, if_true, if_false]
      exact fallback_None p res _ hmode
    · simp only [htype, if_false]
      exact fallback_None p res none hmode

/-- C2, witness: the response of `TestProxyInvalidJson` in the mode `None`. -/
theorem responseBodyToJsonBody_fallback_None_witness :
    responseBodyToJsonBody goLib (testProxy BodyFallbackNone invalidJsonResponse)
      invalidJsonResponse = (some (asciiBytes "\"\""), none) :=
  responseBodyToJsonBody_fallback_None goLib (testProxy BodyFallbackNone invalidJsonResponse)
    invalidJsonResponse rfl (Or.inr (Or.inr (Or.inr ⟨rfl, by decide⟩)))

/-- Every byte of the base64 alphabet is a printable character other than the
double quote and the backslash. -/
theorem encodeStdByte_plain (n : Nat) :
    encodeStdByte n ≠ 34 ∧ 32 ≤ encodeStdByte n ∧ encodeStdByte n ≠ 92 := by
  unfold encodeStdByte
  have hlt : n % 64 < 64 := Nat.mod_lt _ (by decide)
  generalize n % 64 = k at hlt
  interval_cases k <;> decide

/-- The base64 text of any bytes needs no escape in a JSON string. -/
theorem EncodeToString_plain (data : List Nat) :
    ∀ c ∈ EncodeToString data, c ≠ 34 ∧ 32 ≤ c ∧ c ≠ 92 := by
  induction data using EncodeToString.induct with
  | case1 => simp [EncodeToString]
  | case2 a =>
    intro c hc
    simp only [EncodeToString, List.mem_cons, List.mem_singleton, List.not_mem_nil,
      or_false] at hc
    rcases hc with rfl | rfl | rfl | rfl
    · exact encodeStdByte_plain _
    · exact encodeStdByte_plain _
    · decide
    · decide
  | case3 a b =>
    intro c hc
    simp only [EncodeToString, List.mem_cons, List.mem_singleton, List.not_mem_nil,
      or_false] at hc
    rcases hc with rfl | rfl | rfl | rfl
    · exact encodeStdByte_plain _
    · exact encodeStdByte_plain _
    · exact encodeStdByte_plain _
    · decide
  | case4 a b c rest ih =>
    intro x hx
    simp only [EncodeToString, List.cons_append, List.nil_append, List.mem_cons] at hx
    rcases hx with rfl | rfl | rfl | rfl | hx
    · exact encodeStdByte_plain _
    · exact encodeStdByte_plain _
    · exact encodeStdByte_plain _
    · exact encodeStdByte_plain _
    · exact ih x hx

/-- Reading up to the closing quote of a string without quotes yields the
string. -/
theorem takeWhile_quote (content rest : List Nat) (h : ∀ c ∈ content, c ≠ 34) :
    (content ++ 34 :: rest).takeWhile (fun c => c != 34) = content ∧
    (content ++ 34 :: rest).dropWhile (fun c => c != 34) = 34 :: rest := by
  induction content with
  | nil => exact ⟨rfl, rfl⟩
  | cons c r ih =>
    have hc : (c != 34) = true := by
      simpa using h c (List.mem_cons_self _ _)
    have ih2 := ih (fun x hx => h x (List.mem_cons_of_mem _ hx))
    simp only [List.cons_append, List.takeWhile_cons, List.dropWhile_cons, hc, if_true,
      ih2.1, ih2.2, and_self]

/-- The output of `Encode` for a non-nil slice is a JSON string whose content
is the base64 text of the slice. -/
theorem jsonStringContent_Encode (data : List Nat) :
    jsonStringContent (Encode (some data)) = some (EncodeToString data) := by
  have hplain := EncodeToString_plain data
  have htw := takeWhile_quote (EncodeToString data) [10] (fun c hc => (hplain c hc).1)
  have hall : (EncodeToString data).all (fun c => decide (32 ≤ c) && c != 92) = true := by
    rw [List.all_eq_true]
    intro c hc
    have h32 : decide (32 ≤ c) = true := decide_eq_true (hplain c hc).2.1
    have h92 : (c != 92) = true := by
      simpa using (hplain c hc).2.2
    rw [h32, h92]
    rfl
  have hshape : Encode (some data) = 34 :: (EncodeToString data ++ [34, 10]) := rfl
  rw [hshape]
  unfold jsonStringContent
  simp only
  rw [htw.1, htw.2]
  exact if_pos ⟨trivial, hall, rfl, by decide⟩

/-- The byte `EncodeToString` writes for a value is the character Table 1 of
RFC 4648 gives to its last six bits. -/
theorem encodeStdByte_eq (n : Nat) : encodeStdByte n = base64Alphabet (n % 64) := by
  unfold encodeStdByte
  have hlt : n % 64 < 64 := Nat.mod_lt _ (by decide)
  generalize n % 64 = k at hlt
  interval_cases k <;> decide

/-- The first group of three octets: the six high bits of the first octet. -/
theorem sextet1 (a : Nat) :
    bitsValue [a.testBit 7, a.testBit 6, a.testBit 5, a.testBit 4, a.testBit 3, a.testBit 2] =
      a % 256 / 4 := by
  simp only [bitsValue, List.foldl_cons, List.foldl_nil, Nat.toNat_testBit]
  norm_num
  omega

/-- The second group: the two low bits of the first octet and the four high
bits of the second. -/
theorem sextet2 (a b : Nat) :
    bitsValue [a.testBit 1, a.testBit 0, b.testBit 7, b.testBit 6, b.testBit 5, b.testBit 4] =
      a % 4 * 16 + b % 256 / 16 := by
  simp only [bitsValue, List.foldl_cons, List.foldl_nil, Nat.toNat_testBit]
  norm_num
  omega

/-- The third group: the four low bits of the second octet and the two high
bits of the third. -/
theorem sextet3 (b c : Nat) :
    bitsValue [b.testBit 3, b.testBit 2, b.testBit 1, b.testBit 0, c.testBit 7, c.testBit 6] =
      b % 16 * 4 + c % 256 / 64 := by
  simp only [bitsValue, List.foldl_cons, List.foldl_nil, Nat.toNat_testBit]
  norm_num
  omega

/-- The fourth group: the six low bits of the third octet. -/
theorem sextet4 (c : Nat) :
    bitsValue [c.testBit 5, c.testBit 4, c.testBit 3, c.testBit 2, c.testBit 1, c.testBit 0] =
      c % 64 := by
  simp only [bitsValue, List.foldl_cons, List.foldl_nil, Nat.toNat_testBit]
  norm_num
  omega

/-- The second group of a single last octet, padded with four zero bits. -/
theorem sextet2_pad (a : Nat) :
    bitsValue [a.testBit 1, a.testBit 0, false, false, false, false] = a % 4 * 16 := by
  simp only [bitsValue, List.foldl_cons, List.foldl_nil, Nat.toNat_testBit, Bool.toNat_false]
  norm_num
  omega

/-- The third group of two last octets, padded with two zero bits. -/
theorem sextet3_pad (b : Nat) :
    bitsValue [b.testBit 3, b.testBit 2, b.testBit 1, b.testBit 0, false, false] =
      b % 16 * 4 := by
  simp only [bitsValue, List.foldl_cons, List.foldl_nil, Nat.toNat_testBit, Bool.toNat_false]
  norm_num
  omega

/-- Six bits at the head of the stream form the first group. -/
theorem sixBitGroups_cons6 (b1 b2 b3 b4 b5 b6 : Bool) (rest : List Bool) :
    sixBitGroups (b1 :: b2 :: b3 :: b4 :: b5 :: b6 :: rest) =
      [b1, b2, b3, b4, b5, b6] :: sixBitGroups rest := by
  simp only [sixBitGroups]

/-- The empty input has no character. -/
theorem base64Chars_nil : base64Chars [] = [] := rfl

/-- The two characters of a single octet. -/
theorem base64Chars_one (a : Nat) :
    base64Chars [a] = [base64Alphabet (a % 256 / 4), base64Alphabet (a % 4 * 16)] := by
  unfold base64Chars
  have h : bitStream [a] = [a.testBit 7, a.testBit 6, a.testBit 5, a.testBit 4, a.testBit 3,
      a.testBit 2, a.testBit 1, a.testBit 0] := rfl
  rw [h, sixBitGroups_cons6]
  simp only [sixBitGroups, List.map_cons, List.map_nil, sextet1, sextet2_pad]

/-- The three characters of two octets. -/
theorem base64Chars_two (a b : Nat) :
    base64Chars [a, b] = [base64Alphabet (a % 256 / 4), base64Alphabet (a % 4 * 16 + b % 256 / 16),
      base64Alphabet (b % 16 * 4)] := by
  unfold base64Chars
  have h : bitStream [a, b] = [a.testBit 7, a.testBit 6, a.testBit 5, a.testBit 4, a.testBit 3,
      a.testBit 2, a.testBit 1, a.testBit 0, b.testBit 7, b.testBit 6, b.testBit 5, b.testBit 4,
      b.testBit 3, b.testBit 2, b.testBit 1, b.testBit 0] := rfl
  rw [h, sixBitGroups_cons6, sixBitGroups_cons6]
  simp only [sixBitGroups, List.map_cons, List.map_nil, sextet1, sextet2, sextet3_pad]

/-- The four characters of three octets, followed by those of the rest. -/
theorem base64Chars_three (a b c : Nat) (rest : List Nat) :
    base64Chars (a :: b :: c :: rest) =
      [base64Alphabet (a % 256 / 4), base64Alphabet (a % 4 * 16 + b % 256 / 16),
        base64Alphabet (b % 16 * 4 + c % 256 / 64), base64Alphabet (c % 64)] ++
      base64Chars rest := by
  unfold base64Chars
  have h : bitStream (a :: b :: c :: rest) = a.testBit 7 :: a.testBit 6 :: a.testBit 5 ::
      a.testBit 4 :: a.testBit 3 :: a.testBit 2 :: a.testBit 1 :: a.testBit 0 :: b.testBit 7 ::
      b.testBit 6 :: b.testBit 5 :: b.testBit 4 :: b.testBit 3 :: b.testBit 2 :: b.testBit 1 ::
      b.testBit 0 :: c.testBit 7 :: c.testBit 6 :: c.testBit 5 :: c.testBit 4 :: c.testBit 3 ::
      c.testBit 2 :: c.testBit 1 :: c.testBit 0 :: bitStream rest := rfl
  rw [h, sixBitGroups_cons6, sixBitGroups_cons6, sixBitGroups_cons6, sixBitGroups_cons6]
  simp only [List.map_cons, sextet1, sextet2, sextet3, sextet4, List.cons_append,
    List.nil_append]

/-- The encoder of the code computes the standard base64 text of RFC 4648, for
every input. -/
theorem EncodeToString_eq_StdBase64 (data : List Nat) : EncodeToString data = StdBase64 data := by
  induction data using EncodeToString.induct with
  | case1 => rfl
  | case2 a =>
    have h1 : (a % 256) * 65536 / 262144 % 64 = a % 256 / 4 := by omega
    have h2 : (a % 256) * 65536 / 4096 % 64 = a % 4 * 16 := by omega
    simp only [EncodeToString, StdBase64, base64Chars_one, encodeStdByte_eq, h1, h2]
    rfl
  | case3 a b =>
    have h1 : ((a % 256) * 65536 + (b % 256) * 256) / 262144 % 64 = a % 256 / 4 := by omega
    have h2 : ((a % 256) * 65536 + (b % 256) * 256) / 4096 % 64 = a % 4 * 16 + b % 256 / 16 := by
      omega
    have h3 : ((a % 256) * 65536 + (b % 256) * 256) / 64 % 64 = b % 16 * 4 := by omega
    simp only [EncodeToString, StdBase64, base64Chars_two, encodeStdByte_eq, h1, h2, h3]
    rfl
  | case4 a b c rest ih =>
    have h1 : ((a % 256) * 65536 + (b % 256) * 256 + c % 256) / 262144 % 64 = a % 256 / 4 := by
      omega
    have h2 : ((a % 256) * 65536 + (b % 256) * 256 + c % 256) / 4096 % 64 =
        a % 4 * 16 + b % 256 / 16 := by omega
    have h3 : ((a % 256) * 65536 + (b % 256) * 256 + c % 256) / 64 % 64 =
        b % 16 * 4 + c % 256 / 64 := by omega
    have h4 : ((a % 256) * 65536 + (b % 256) * 256 + c % 256) % 64 = c % 64 := by omega
    have hlen : (4 - (base64Chars (a :: b :: c :: rest)).length % 4) % 4 =
        (4 - (base64Chars rest).length % 4) % 4 := by
      rw [base64Chars_three, List.length_append]
      simp only [List.length_cons, List.length_nil]
      omega
    unfold StdBase64
    rw [hlen, base64Chars_three, List.append_assoc]
    simp only [EncodeToString, encodeStdByte_eq, h1, h2, h3, h4, ih]
    rfl

/-- Table 1 read backwards gives back the value, and no character of the
alphabet is the padding character. -/
theorem base64Value_Alphabet (i : Nat) (h : i < 64) :
    base64Value (base64Alphabet i) = some i ∧ base64Alphabet i ≠ 61 := by
  interval_cases i <;> decide

/-- The standard base64 text of three octets followed by more input. -/
theorem StdBase64_three (a b c : Nat) (rest : List Nat) :
    StdBase64 (a :: b :: c :: rest) =
      base64Alphabet (a % 256 / 4) :: base64Alphabet (a % 4 * 16 + b % 256 / 16) ::
        base64Alphabet (b % 16 * 4 + c % 256 / 64) :: base64Alphabet (c % 64) ::
        StdBase64 rest := by
  have hlen : (4 - (base64Chars (a :: b :: c :: rest)).length % 4) % 4 =
      (4 - (base64Chars rest).length % 4) % 4 := by
    rw [base64Chars_three, List.length_append]
    simp only [List.length_cons, List.length_nil]
    omega
  unfold StdBase64
  rw [hlen, base64Chars_three, List.append_assoc]
  rfl

/-- Decoding the standard base64 text of a list of octets gives back the
octets. -/
theorem StdBase64Decode_StdBase64 (data : List Nat) (h : ∀ b ∈ data, b < 256) :
    StdBase64Decode (StdBase64 data) = some data := by
  induction data using EncodeToString.induct with
  | case1 => rfl
  | case2 a =>
    have ha : a < 256 := h a (List.mem_cons_self _ _)
    have e : StdBase64 [a] =
        [base64Alphabet (a % 256 / 4), base64Alphabet (a % 4 * 16), 61, 61] := by
      unfold StdBase64
      rw [base64Chars_one]
      rfl
    have v1 := base64Value_Alphabet (a % 256 / 4) (by omega)
    have v2 := base64Value_Alphabet (a % 4 * 16) (by omega)
    rw [e]
    unfold StdBase64Decode
    simp only [v1.1, v2.1, and_self, if_true]
    congr 2
    omega
  | case3 a b =>
    have ha : a < 256 := h a (List.mem_cons_self _ _)
    have hb : b < 256 := h b (List.mem_cons_of_mem _ (List.mem_cons_self _ _))
    have e : StdBase64 [a, b] =
        [base64Alphabet (a % 256 / 4), base64Alphabet (a % 4 * 16 + b % 256 / 16),
          base64Alphabet (b % 16 * 4), 61] := by
      unfold StdBase64
      rw [base64Chars_two]
      rfl
    have v1 := base64Value_Alphabet (a % 256 / 4) (by omega)
    have v2 := base64Value_Alphabet (a % 4 * 16 + b % 256 / 16) (by omega)
    have v3 := base64Value_Alphabet (b % 16 * 4) (by omega)
    rw [e]
    unfold StdBase64Decode
    simp only [v1.1, v2.1, v3.1, v3.2, false_and, and_self, if_true, if_false]
    congr 2
    · omega
    · congr 1
      omega
  | case4 a b c rest ih =>
    have ha : a < 256 := h a (List.mem_cons_self _ _)
    have hb : b < 256 := h b (List.mem_cons_of_mem _ (List.mem_cons_self _ _))
    have hc : c < 256 :=
      h c (List.mem_cons_of_mem _ (List.mem_cons_of_mem _ (List.mem_cons_self _ _)))
    have hrest := ih (fun x hx =>
      h x (List.mem_cons_of_mem _ (List.mem_cons_of_mem _ (List.mem_cons_of_mem _ hx))))
    have v1 := base64Value_Alphabet (a % 256 / 4) (by omega)
    have v2 := base64Value_Alphabet (a % 4 * 16 + b % 256 / 16) (by omega)
    have v3 := base64Value_Alphabet (b % 16 * 4 + c % 256 / 64) (by omega)
    have v4 := base64Value_Alphabet (c % 64) (by omega)
    rw [StdBase64_three]
    unfold StdBase64Decode
    simp only [v1.1, v2.1, v3.1, v3.2, v4.1, v4.2, hrest, false_and, if_false]
    congr 2
    · omega
    · congr 1
      · omega
      · congr 1
        omega

/-- C3: in the mode `JsonEncode`, for every response whose body is read
without error and that declares no body (length at most 0), or whose
`Content-Type` does not contain `application/json`, or whose body is empty or
does not decode as JSON, `responseBodyToJsonBody` returns no error and a JSON
string (a double quote, the text, a double quote, and the line feed that ends
the output of the encoder) whose content is the standard base64 encoding of
the bytes of the body, as RFC 4648 defines it; decoding that text gives back
the bytes of the body; for an empty body the string is `""`. -/
theorem responseBodyToJsonBody_fallback_JsonEncode (lib : Lib) (p : Proxy) (res : Response)
    (hmode : p.BodyFallback = BodyFallbackJsonEncode)
    (hread : res.Body.err = none)
    (h : res.ContentLength ≤ 0 ∨
      Contains (Header.Get lib res.Header "Content-Type") "application/json" = false ∨
      res.Body.data = [] ∨
      lib.Unmarshal res.Body.data = false) :
    responseBodyToJsonBody lib p res =
      (some ([34] ++ StdBase64 res.Body.data ++ [34, 10]), none) ∧
    jsonStringContent ([34] ++ StdBase64 res.Body.data ++ [34, 10]) =
      some (StdBase64 res.Body.data) ∧
    ((∀ b ∈ res.Body.data, b < 256) →
      StdBase64Decode (StdBase64 res.Body.data) = some res.Body.data) ∧
    (res.Body.data = [] →
      responseBodyToJsonBody lib p res = (some (asciiBytes "\"\"" ++ [10]), none)) := by
  have hne : ¬ p.BodyFallback = BodyFallbackNone := by
    rw [hmode]
    decide
  have hfb : ∀ body : Option (List Nat), body = none ∨ body = some res.Body.data →
      fallback p res body none =
        (some ([34] ++ EncodeToString res.Body.data ++ [34, 10]), none) := by
    intro body hbody
    unfold fallback
    rw [if_neg hne, if_pos hmode]
    rcases hbody with rfl | rfl
    · simp [ReadAll, hread, Encode]
    · simp [Encode]
  have hcode : responseBodyToJsonBody lib p res =
      (some ([34] ++ EncodeToString res.Body.data ++ [34, 10]), none) := by
    unfold responseBodyToJsonBody
    by_cases hlen : res.ContentLength ≤ 0
    · rw [if_pos hlen]
      exact hfb none (Or.inl rfl)
    · rw [if_neg hlen]
      by_cases htype :
          Contains (Header.Get lib res.Header "Content-Type") "application/json" = true
      · have hbad : lib.Unmarshal res.Body.data = false := by
          rcases h with h | h | h | h
          · exact absurd h hlen
          · rw [htype] at h
            exact absurd h (by decide)
          · rw [h]
            exact lib.Unmarshal_nil
          · exact h
        simp only [htype, ReadAll, hread, hbad, Option.getD_some, if_true, if_false]
        exact hfb _ (Or.inr rfl)
      · simp only [htype, if_false]
        exact hfb none (Or.inl rfl)
  have hcontent := jsonStringContent_Encode res.Body.data
  have hshape : Encode (some res.Body.data) =
      [34] ++ EncodeToString res.Body.data ++ [34, 10] := rfl
  rw [hshape] at hcontent
  rw [EncodeToString_eq_StdBase64] at hcode hcontent
  refine ⟨hcode, hcontent, StdBase64Decode_StdBase64 res.Body.data, ?_⟩
  intro hempty
  rw [hcode, hempty]
  decide

/-- C3, witness: a body whose base64 text has the characters `+` and `/` and
the padding, in the mode `JsonEncode`; then the bodies of
`TestProxyNotJsonContent` and `TestProxyInvalidJson`, and the test vectors of
section 10 of RFC 4648, on the encoder of the code. -/
theorem responseBodyToJsonBody_fallback_JsonEncode_witness :
    (responseBodyToJsonBody goLib (testProxy BodyFallbackJsonEncode binaryResponse)
        binaryResponse =
      (some ([34] ++ StdBase64 binaryResponse.Body.data ++ [34, 10]), none) ∧
    jsonStringContent ([34] ++ StdBase64 binaryResponse.Body.data ++ [34, 10]) =
      some (StdBase64 binaryResponse.Body.data) ∧
    ((∀ b ∈ binaryResponse.Body.data, b < 256) →
      StdBase64Decode (StdBase64 binaryResponse.Body.data) =
        some binaryResponse.Body.data) ∧
    (binaryResponse.Body.data = [] →
      responseBodyToJsonBody goLib (testProxy BodyFallbackJsonEncode binaryResponse)
        binaryResponse = (some (asciiBytes "\"\"" ++ [10]), none))) ∧
    responseBodyToJsonBody goLib (testProxy BodyFallbackJsonEncode binaryResponse)
      binaryResponse = (some (asciiBytes "\"+/8=\"" ++ [10]), none) ∧
    responseBodyToJsonBody goLib (testProxy BodyFallbackJsonEncode notJsonResponse)
      notJsonResponse = (some (asciiBytes "\"bm90IGZvdW5k\"" ++ [10]), none) ∧
    responseBodyToJsonBody goLib (testProxy BodyFallbackJsonEncode invalidJsonResponse)
      invalidJsonResponse = (some (asciiBytes "\"eyJwaW5nIjoicG9uZyI=\"" ++ [10]), none) ∧
    EncodeToString (asciiBytes "f") = asciiBytes "Zg==" ∧
    EncodeToString (asciiBytes "fo") = asciiBytes "Zm8=" ∧
    EncodeToString (asciiBytes "foo") = asciiBytes "Zm9v" ∧
    EncodeToString (asciiBytes "foob") = asciiBytes "Zm9vYg==" ∧
    EncodeToString (asciiBytes "fooba") = asciiBytes "Zm9vYmE=" ∧
    EncodeToString (asciiBytes "foobar") = asciiBytes "Zm9vYmFy" ∧
    EncodeToString [251, 239, 190, 255, 255, 255] = asciiBytes "++++////" ∧
    StdBase64 [251, 239, 190, 255, 255, 255] = asciiBytes "++++////" ∧
    StdBase64 (asciiBytes "foobar") = asciiBytes "Zm9vYmFy" ∧
    StdBase64Decode (asciiBytes "Zm9vYg==") = some (asciiBytes "foob") :=
  ⟨responseBodyToJsonBody_fallback_JsonEncode goLib
      (testProxy BodyFallbackJsonEncode binaryResponse) binaryResponse rfl rfl
      (Or.inr (Or.inl (by decide))),
    by decide, by decide, by decide, by decide, by decide, by decide, by decide, by decide,
    by decide, by decide, by decide, by decide, by decide⟩

/-! ### Reload -/

/-- The `SIGHUP` case never changes the fallback mode of the proxy. -/
theorem reload_BodyFallback (lib : Lib) (config : String) (h : Proxy) :
    (reload lib config h).BodyFallback = h.BodyFallback := by
  unfold reload
  split
  · rfl
  · split <;> rfl

/-- C5, at the failing input: the proxy runs in the mode `None` and the
configuration file, which loads and validates, selects `JsonEncode`. After the
reload the target list is the parsed list of the file and the mode is still
`None`. -/
theorem reload_keeps_old_BodyFallback :
    (LoadConfig reloadLib "proxy-collector.json").toOption = some reloadedConfig ∧
    reloadedConfig.BodyFallback = BodyFallbackJsonEncode ∧
    (testProxy BodyFallbackNone notJsonResponse).BodyFallback = BodyFallbackNone ∧
    (reload reloadLib "proxy-collector.json"
      (testProxy BodyFallbackNone notJsonResponse)).TargetList =
      [{ Scheme := "http", Opaque := "", User := none, Host := "example.com", Path := "",
         RawQuery := "", Fragment := "" }] ∧
    (reload reloadLib "proxy-collector.json"
      (testProxy BodyFallbackNone notJsonResponse)).BodyFallback = BodyFallbackNone := by
  decide

/-! ### Cloning the inbound request -/

set_option maxRecDepth 16000

/-- C6, at the failing input: the inbound request has no hop-by-hop header and
a remote address that splits. `cloneRequest` returns a request that shares the
header map of the inbound request and writes `X-Forwarded-For` into it, so a
second call builds a different outbound header. With a `Connection` header the
map is copied and the inbound header is left as it was. -/
theorem cloneRequest_writes_inbound_Header :
    plainHeap.read inbound.Header = [("Accept", ["*/*"])] ∧
    (cloneRequest goLib plainHeap inbound).1.Header = inbound.Header ∧
    (cloneRequest goLib plainHeap inbound).2.read inbound.Header =
      [("Accept", ["*/*"]), ("X-Forwarded-For", ["192.0.2.1"])] ∧
    (cloneRequest goLib (cloneRequest goLib plainHeap inbound).2 inbound).2.read
        inbound.Header =
      [("Accept", ["*/*"]), ("X-Forwarded-For", ["192.0.2.1, 192.0.2.1"])] ∧
    (cloneRequest goLib hopHeap inbound).2.read inbound.Header = hopHeap.read inbound.Header := by
  decide

/-- C7, at the failing input: two targets, an inbound request without
`X-Forwarded-For` and without hop-by-hop header, from the client `192.0.2.1`.
Both workers send `X-Forwarded-For: 192.0.2.1, 192.0.2.1`. With a `Connection`
header in the inbound request both send `192.0.2.1`. -/
theorem ServeHTTP_appends_client_IP_per_target :
    goLib.SplitHostPort inbound.RemoteAddr = some ("192.0.2.1", "1234") ∧
    mapGet (plainHeap.read inbound.Header) "X-Forwarded-For" = none ∧
    (sentHeaders goLib [targetA, targetB] plainHeap inbound).map
        (fun e => (e.1, mapGet e.2 "X-Forwarded-For")) =
      [("http://127.0.0.1:8001", some ["192.0.2.1, 192.0.2.1"]),
       ("http://127.0.0.1:8002", some ["192.0.2.1, 192.0.2.1"])] ∧
    (sentHeaders goLib [targetA, targetB] hopHeap inbound).map
        (fun e => (e.1, mapGet e.2 "X-Forwarded-For")) =
      [("http://127.0.0.1:8001", some ["192.0.2.1"]),
       ("http://127.0.0.1:8002", some ["192.0.2.1"])] := by
  decide

/-- C10, at the failing input: the inbound request has two `Connection` header
lines, the first with an empty value. `Header.Get` returns the empty string,
the header is not deleted, and the outbound request carries `Connection` with
the value `close`. -/
theorem cloneRequest_keeps_hop_header_with_empty_first_value :
    Header.Get goLib (emptyHopHeap.read inbound.Header) "Connection" = "" ∧
    (cloneRequest goLib emptyHopHeap inbound).2.read
        (cloneRequest goLib emptyHopHeap inbound).1.Header =
      [("Connection", ["", "close"]), ("Accept", ["*/*"]),
       ("X-Forwarded-For", ["192.0.2.1"])] ∧
    (cloneRequest goLib hopHeap inbound).2.read (cloneRequest goLib hopHeap inbound).1.Header =
      [("Accept", ["*/*"]), ("X-Forwarded-For", ["192.0.2.1"])] := by
  decide

/-! ### The dispatcher -/

/-- The keys of a map after `m[k] = v`: `k` is added at the end when it is new. -/
theorem mapSet_keys {α : Type} (m : List (String × α)) (k : String) (v : α) :
    (mapSet m k v).map Prod.fst =
      if k ∈ m.map Prod.fst then m.map Prod.fst else m.map Prod.fst ++ [k] := by
  induction m with
  | nil => simp [mapSet]
  | cons e rest ih =>
    obtain ⟨k', v'⟩ := e
    unfold mapSet
    by_cases hk : k' = k
    · subst hk
      simp
    · have hk2 : ¬ k = k' := fun h => hk h.symm
      rw [if_neg hk]
      simp only [List.map_cons, List.mem_cons, hk2, false_or, ih]
      split <;> simp

/-- Entries of a map without repeated keys are found by `mapGet`. -/
theorem mapGet_of_mem {α : Type} (m : List (String × α)) (hm : (m.map Prod.fst).Nodup)
    (k : String) (v : α) (h : (k, v) ∈ m) : mapGet m k = some v := by
  induction m with
  | nil => simp at h
  | cons e rest ih =>
    obtain ⟨k', v'⟩ := e
    rw [List.map_cons, List.nodup_cons] at hm
    unfold mapGet
    rcases List.mem_cons.mp h with heq | hin
    · cases heq
      simp
    · have hne : ¬ k' = k := by
        intro hk
        subst hk
        exact hm.1 (List.mem_map.mpr ⟨(k', v), hin, rfl⟩)
      rw [if_neg hne]
      exact ih hm.2 hin

/-- The keys of `targetReqMap` after the first loop of `ServeHTTP`: no key is
repeated, and the keys are those present before and the URL strings of the
targets visited. -/
theorem buildTargetReqMap_keys (lib : Lib) (req : Request) :
    ∀ (targets : List URL) (heap : Heap) (m : List (String × Request)),
      (m.map Prod.fst).Nodup →
      ((buildTargetReqMap lib req targets heap m).1.map Prod.fst).Nodup ∧
      ∀ s, s ∈ (buildTargetReqMap lib req targets heap m).1.map Prod.fst ↔
        s ∈ m.map Prod.fst ∨ s ∈ targets.map lib.URLString := by
  intro targets
  induction targets with
  | nil =>
    intro heap m hm
    simp [buildTargetReqMap, hm]
  | cons t rest ih =>
    intro heap m hm
    unfold buildTargetReqMap
    simp only
    have hkeys := mapSet_keys m (lib.URLString t)
      { (cloneRequest lib heap req).1 with URL := director t req }
    have hnodup : ((mapSet m (lib.URLString t)
        { (cloneRequest lib heap req).1 with URL := director t req }).map Prod.fst).Nodup := by
      rw [hkeys]
      split
      · exact hm
      · rename_i hnot
        rw [List.nodup_append]
        refine ⟨hm, List.nodup_singleton _, ?_⟩
        intro a ha hb
        rw [List.mem_singleton] at hb
        subst hb
        exact hnot ha
    have hrec := ih (cloneRequest lib heap req).2 _ hnodup
    refine ⟨hrec.1, ?_⟩
    intro s
    rw [hrec.2 s, hkeys]
    split
    · rename_i hin
      simp only [List.map_cons, List.mem_cons]
      constructor
      · rintro (h | h)
        · exact Or.inl h
        · exact Or.inr (Or.inr h)
      · rintro (h | h | h)
        · exact Or.inl h
        · subst h
          exact Or.inl hin
        · exact Or.inr h
    · simp only [List.map_cons, List.mem_cons, List.mem_append, List.mem_singleton]
      tauto

/-- The worker of a target sends an item, which names the target, when its
round trip succeeds, and nothing otherwise. -/
theorem worker_Target (lib : Lib) (p : Proxy) (heap : Heap) (target : String)
    (req : Request) :
    (worker lib p heap target req).map JsonItem.Target =
      if (p.Transport target req (heap.read req.Header)).toBool = true then some target
      else none := by
  unfold worker
  cases p.Transport target req (heap.read req.Header) <;> rfl

/-- The targets of the items sent are the keys of the entries whose round trip
succeeds. -/
theorem filterMap_worker_Target (lib : Lib) (p : Proxy) (heap : Heap)
    (m : List (String × Request)) :
    (m.filterMap (fun e => worker lib p heap e.1 e.2)).map JsonItem.Target =
      (m.filter (fun e => (p.Transport e.1 e.2 (heap.read e.2.Header)).toBool)).map
        Prod.fst := by
  induction m with
  | nil => rfl
  | cons e rest ih =>
    have hw := worker_Target lib p heap e.1 e.2
    by_cases hb : (p.Transport e.1 e.2 (heap.read e.2.Header)).toBool = true
    · rw [if_pos hb] at hw
      cases hwk : worker lib p heap e.1 e.2 with
      | none =>
        rw [hwk] at hw
        cases hw
      | some item =>
        rw [hwk] at hw
        simp only [Option.map_some', Option.some.injEq] at hw
        simp only [List.filterMap_cons, hwk, List.filter_cons, hb, if_true, List.map_cons, hw,
          ih]
    · rw [if_neg hb] at hw
      cases hwk : worker lib p heap e.1 e.2 with
      | none =>
        simp only [List.filterMap_cons, hwk, List.filter_cons, hb, if_false, ih]
        rfl
      | some item =>
        rw [hwk] at hw
        cases hw

/-- The targets of the items sent by the workers, in the order of
`targetReqMap`: the keys of the map whose worker has a successful round trip. -/
theorem sentItems_Target (lib : Lib) (p : Proxy) (heap : Heap) (req : Request) :
    (sentItems lib p heap req).map JsonItem.Target =
      ((buildTargetReqMap lib req p.TargetList heap []).1.map Prod.fst).filter
        (reachable lib p heap req) := by
  have hk := buildTargetReqMap_keys lib req p.TargetList heap [] List.nodup_nil
  unfold sentItems
  simp only
  rw [filterMap_worker_Target, List.filter_map]
  congr 1
  apply List.filter_congr
  intro e he
  unfold reachable
  simp only [Function.comp]
  rw [mapGet_of_mem _ hk.1 e.1 e.2 he]

/-- The keys of `targetReqMap` are the distinct URL strings of the target
list. -/
theorem targetReqMap_keys_perm (lib : Lib) (p : Proxy) (heap : Heap) (req : Request) :
    ((buildTargetReqMap lib req p.TargetList heap []).1.map Prod.fst).Perm
      (p.TargetList.map lib.URLString).dedup := by
  have hk := buildTargetReqMap_keys lib req p.TargetList heap [] List.nodup_nil
  refine (List.perm_ext_iff_of_nodup hk.1 (List.nodup_dedup _)).mpr ?_
  intro s
  rw [hk.2 s, List.mem_dedup]
  simp

/-- C4, as amended: for every target list, every outcome of the round trips
and every order in which the workers complete, `ServeHTTP` runs one worker per
distinct URL string of the target list, and the targets of the items are, up
to order, the distinct URL strings of the list whose round trip succeeds: one
item for each, none for a string whose round trip fails, and no item when
every round trip fails. When the URL strings of the list are pairwise
distinct, there is one worker per target of the list and the number of items
is the number of targets of the list whose round trip succeeds. -/
theorem ServeHTTP_one_item_per_reachable_target (lib : Lib) (p : Proxy) (heap : Heap)
    (req : Request) (items : List JsonItem) (h : ServeHTTP lib p heap req items) :
    ((buildTargetReqMap lib req p.TargetList heap []).1.map Prod.fst).Perm
      (p.TargetList.map lib.URLString).dedup ∧
    (items.map JsonItem.Target).Perm
      ((p.TargetList.map lib.URLString).dedup.filter (reachable lib p heap req)) ∧
    items.length =
      ((p.TargetList.map lib.URLString).dedup.filter (reachable lib p heap req)).length ∧
    (∀ s, s ∈ items.map JsonItem.Target ↔
      s ∈ p.TargetList.map lib.URLString ∧ reachable lib p heap req s = true) ∧
    ((∀ s ∈ p.TargetList.map lib.URLString, reachable lib p heap req s = false) →
      items = []) ∧
    ((p.TargetList.map lib.URLString).Nodup →
      (buildTargetReqMap lib req p.TargetList heap []).1.length = p.TargetList.length ∧
      items.length =
        (p.TargetList.filter (fun t => reachable lib p heap req (lib.URLString t))).length) := by
  have hkeys := targetReqMap_keys_perm lib p heap req
  have hitems : (items.map JsonItem.Target).Perm
      ((p.TargetList.map lib.URLString).dedup.filter (reachable lib p heap req)) := by
    refine (List.Perm.map JsonItem.Target h).trans ?_
    rw [sentItems_Target]
    exact hkeys.filter _
  have hlen : items.length =
      ((p.TargetList.map lib.URLString).dedup.filter (reachable lib p heap req)).length := by
    rw [← hitems.length_eq, List.length_map]
  refine ⟨hkeys, hitems, hlen, ?_, ?_, ?_⟩
  · intro s
    rw [hitems.mem_iff, List.mem_filter, List.mem_dedup]
  · intro hdown
    have hnil : (p.TargetList.map lib.URLString).dedup.filter (reachable lib p heap req) = [] := by
      rw [List.filter_eq_nil_iff]
      intro s hs
      rw [hdown s (List.mem_dedup.mp hs)]
      decide
    rw [hnil] at hlen
    exact List.length_eq_zero.mp hlen
  · intro hnodup
    rw [hnodup.dedup] at hkeys hlen
    constructor
    · have := hkeys.length_eq
      rw [List.length_map, List.length_map] at this
      exact this
    · rw [hlen, List.filter_map, List.length_map]
      rfl

/-- C4, witness: the proxy of `TestProxyDownHost`. The one item is that of the
backend that answers. -/
theorem ServeHTTP_one_item_per_reachable_target_witness :
    ServeHTTP goLib downHostProxy plainHeap inbound [downHostItem] ∧
    ([downHostItem].map JsonItem.Target).Perm
      ((downHostProxy.TargetList.map goLib.URLString).dedup.filter
        (reachable goLib downHostProxy plainHeap inbound)) ∧
    (downHostProxy.TargetList.map goLib.URLString).dedup.filter
        (reachable goLib downHostProxy plainHeap inbound) = ["http://127.0.0.1:8001"] := by
  have hsent : sentItems goLib downHostProxy plainHeap inbound = [downHostItem] := by decide
  have hs : ServeHTTP goLib downHostProxy plainHeap inbound [downHostItem] := by
    unfold ServeHTTP
    rw [hsent]
  exact ⟨hs,
    (ServeHTTP_one_item_per_reachable_target goLib downHostProxy plainHeap inbound
      [downHostItem] hs).2.1,
    by decide⟩

/-- C4, counterexample: the target list names the backend
`http://127.0.0.1:8001` twice and the backend answers every request. The list
has two targets, both reachable, and `ServeHTTP` starts one worker and
collects one item. -/
theorem ServeHTTP_duplicate_target_one_item :
    twiceProxy.TargetList.length = 2 ∧
    (∀ t ∈ twiceProxy.TargetList,
      reachable goLib twiceProxy plainHeap inbound (goLib.URLString t) = true) ∧
    (buildTargetReqMap goLib inbound twiceProxy.TargetList plainHeap []).1.length = 1 ∧
    sentItems goLib twiceProxy plainHeap inbound = [downHostItem] ∧
    ∀ items, ServeHTTP goLib twiceProxy plainHeap inbound items → items.length = 1 := by
  have hsent : sentItems goLib twiceProxy plainHeap inbound = [downHostItem] := by decide
  refine ⟨by decide, by decide, by decide, hsent, ?_⟩
  intro items h
  unfold ServeHTTP at h
  rw [hsent] at h
  exact h.length_eq

/-! ### Read failures -/

/-- A worker whose round trip succeeds sends an item with its target, the
status code of the response and the body `responseBodyToJsonBody` returns,
whether or not an error is returned with it. -/
theorem worker_of_ok (lib : Lib) (p : Proxy) (heap : Heap) (target : String) (req : Request)
    (res : Response) (hrt : p.Transport target req (heap.read req.Header) = .ok res) :
    worker lib p heap target req =
      some { Target := target, Body := (responseBodyToJsonBody lib p res).1,
             StatusCode := res.StatusCode } := by
  unfold worker
  rw [hrt]

/-- A failed read is reported as an error in both places where the body is
read. In the `application/json` branch the bytes read before the failure are
returned with the error; in the `JsonEncode` fallback the body returned is
`nil`. -/
theorem responseBodyToJsonBody_read_error (lib : Lib) (p : Proxy) (res : Response) (e : String)
    (hread : res.Body.err = some e) :
    (0 < res.ContentLength →
      Contains (Header.Get lib res.Header "Content-Type") "application/json" = true →
      responseBodyToJsonBody lib p res =
        (some res.Body.data, some ("read body err:" ++ e))) ∧
    (p.BodyFallback = BodyFallbackJsonEncode →
      (res.ContentLength ≤ 0 ∨
        Contains (Header.Get lib res.Header "Content-Type") "application/json" = false) →
      responseBodyToJsonBody lib p res = (none, some ("read body err:" ++ e))) := by
  constructor
  · intro hlen htype
    unfold responseBodyToJsonBody
    rw [if_neg (not_le.mpr hlen)]
    simp [htype, ReadAll, hread]
  · intro hmode hcase
    have hne : ¬ p.BodyFallback = BodyFallbackNone := by
      rw [hmode]
      decide
    have hfb : fallback p res none none = (none, some ("read body err:" ++ e)) := by
      unfold fallback
      rw [if_neg hne, if_pos hmode]
      simp [ReadAll, hread]
    unfold responseBodyToJsonBody
    by_cases hlen : res.ContentLength ≤ 0
    · rw [if_pos hlen]
      exact hfb
    · rw [if_neg hlen]
      rcases hcase with h | h
      · exact absurd h hlen
      · simp only [h]
        exact hfb

/-- C11, at the failing input: a response with `Content-Type:
application/json` that declares fifteen bytes and whose read fails after
seven. `responseBodyToJsonBody` reports the error and the worker sends an item
with the target and the status code, but the body of the item is the seven
bytes read, not `nil`. When the read fails in the `JsonEncode` fallback the
body is `nil`. -/
theorem worker_read_error_keeps_partial_bytes :
    brokenJsonResponse.Body.err = some "unexpected EOF" ∧
    responseBodyToJsonBody goLib (testProxy BodyFallbackNone brokenJsonResponse)
        brokenJsonResponse =
      (some (asciiBytes "\x7b\"ping\""), some "read body err:unexpected EOF") ∧
    worker goLib (testProxy BodyFallbackNone brokenJsonResponse) plainHeap
        "http://127.0.0.1:8001" inbound =
      some { Target := "http://127.0.0.1:8001", Body := some (asciiBytes "\x7b\"ping\""),
             StatusCode := 200 } ∧
    responseBodyToJsonBody goLib (testProxy BodyFallbackJsonEncode brokenTextResponse)
        brokenTextResponse = (none, some "read body err:unexpected EOF") ∧
    worker goLib (testProxy BodyFallbackJsonEncode brokenTextResponse) plainHeap
        "http://127.0.0.1:8001" inbound =
      some { Target := "http://127.0.0.1:8001", Body := none, StatusCode := 404 } := by
  decide

/-! ### Validation of the configuration -/

/-- C12: `Config.validate` returns an error exactly when the target list is
empty or the fallback mode is neither 0 nor 1. An empty list gives
`target_list is empty`, whatever the mode; a mode `n` other than 0 and 1 with
a non-empty list gives `not support body fallback mode:n`; a non-empty list
with the mode 0 or 1 is accepted. -/
theorem Config_validate_error_iff (c : Config) :
    (c.validate ≠ none ↔
      c.TargetList = [] ∨ (c.BodyFallback ≠ 0 ∧ c.BodyFallback ≠ 1)) ∧
    (c.TargetList = [] → c.validate = some "target_list is empty") ∧
    (c.TargetList ≠ [] → c.BodyFallback ≠ 0 → c.BodyFallback ≠ 1 →
      c.validate = some ("not support body fallback mode:" ++ toString c.BodyFallback)) ∧
    (c.TargetList ≠ [] → c.BodyFallback = 0 ∨ c.BodyFallback = 1 → c.validate = none) := by
  have hlen : c.TargetList.length ≤ 0 ↔ c.TargetList = [] := by
    rw [Nat.le_zero, List.length_eq_zero]
  have hempty : c.TargetList = [] → c.validate = some "target_list is empty" := by
    intro h
    unfold Config.validate
    rw [if_pos (hlen.mpr h)]
  have hbad : c.TargetList ≠ [] → c.BodyFallback ≠ 0 → c.BodyFallback ≠ 1 →
      c.validate = some ("not support body fallback mode:" ++ toString c.BodyFallback) := by
    intro h h0 h1
    unfold Config.validate
    rw [if_neg (fun hl => h (hlen.mp hl)), if_neg]
    rintro (hm | hm)
    · exact h0 hm
    · exact h1 hm
  have hgood : c.TargetList ≠ [] → c.BodyFallback = 0 ∨ c.BodyFallback = 1 →
      c.validate = none := by
    intro h hm
    have hm2 : c.BodyFallback = BodyFallbackNone ∨ c.BodyFallback = BodyFallbackJsonEncode :=
      hm
    unfold Config.validate
    rw [if_neg (fun hl => h (hlen.mp hl)), if_pos hm2]
  refine ⟨?_, hempty, hbad, hgood⟩
  constructor
  · intro herr
    by_cases hl : c.TargetList = []
    · exact Or.inl hl
    · right
      constructor
      · intro h0
        exact herr (hgood hl (Or.inl h0))
      · intro h1
        exact herr (hgood hl (Or.inr h1))
  · rintro (hl | ⟨h0, h1⟩)
    · rw [hempty hl]
      exact Option.some_ne_none _
    · by_cases hl : c.TargetList = []
      · rw [hempty hl]
        exact Option.some_ne_none _
      · rw [hbad hl h0 h1]
        exact Option.some_ne_none _

/-- C12, on the three cases of `TestLoadConfig`: an empty list, the mode 2,
and a valid configuration. -/
theorem Config_validate_TestLoadConfig :
    emptyListConfig.validate = some "target_list is empty" ∧
    badModeConfig.validate = some "not support body fallback mode:2" ∧
    reloadedConfig.validate = none ∧
    (LoadConfig (withFile goLib "proxy-collector" badModeConfig) "proxy-collector").toOption
      = none ∧
    (LoadConfig (withFile goLib "proxy-collector" reloadedConfig) "proxy-collector").toOption
      = some reloadedConfig := by
  decide

end ProxyCollector
